import Mathlib

/-!
Shallow embedding of the PlanItinerary concept (itinerary.ts): the itinerary
data model, event operations, budget calculator, and the LLM suggestion
request/validation pipeline.

Modelling conventions:
* JS numbers (costs, budgets) are modelled as `Int`; only order and additive
  structure of costs is relevant to the properties below.
* JS strings are Lean `String`s; the character-level operations
  (`toLowerCase`, the `/[^a-z0-9\s]/g` strip, `trim`, `includes`) are
  modelled on `List Char`.  `Char.toLower` lowers ASCII letters, which is
  exact for ASCII data; JS whitespace is modelled by the ASCII whitespace
  set used by both `\s` and `String.prototype.trim`.
* JS reference identity of `Trip` objects (the `===` in `create`) is
  modelled by tagging each Trip object with a `ref : Nat` identifier.
* Values produced by `JSON.parse` are untyped, so a run-time `Suggestion`
  record may be missing any field: every field is an `Option`.  The code
  itself guards `location` and `cost` with falsy-checks, but reads
  `suggestion.name` unguarded inside `isDuplicate`; a missing field there is
  a thrown `TypeError`, modelled with `Except`.
* The one `try/catch` in `requestSuggestionFromLLM` converts every thrown
  error into the empty suggestion list; the model folds the catch into a
  total function.  The gateway reply and `JSON.parse` are external
  behaviours, so the model takes the gateway outcome and the parse outcome
  (as a function of the extracted span) as parameters and quantifies over
  them.  Prompt construction does not influence any property below (the
  gateway outcome is universally quantified), so it is not modelled.
-/

namespace PlanItinerary

/-- Trip record fields (interface `Trip`). -/
structure Trip where
  destination : String
  startDate : String
  endDate : String
  groupSize : Int
deriving DecidableEq

/-- A Trip *object*: JS reference identity is modelled by the `ref` tag.
Two objects with equal `val` but different `ref` are distinct references. -/
structure TripRef where
  ref : Nat
  val : Trip
deriving DecidableEq

/-- Event record (interface `Event`).  The TS field `end` is a Lean keyword
and is rendered `end_`. -/
structure Event where
  name : String
  cost : Int
  start : String
  end_ : String
  location : String
  pending : Bool
  approved : Bool
deriving DecidableEq

/-- Itinerary record (interface `Itinerary`). -/
structure Itinerary where
  trip : TripRef
  events : List Event
  finalized : Bool
  budget : Int
deriving DecidableEq

/-- Run-time suggestion record, as produced by an unchecked `JSON.parse`
cast: any of the `Suggestion` interface fields may be absent. -/
structure Suggestion where
  name : Option String
  cost : Option Int
  category : Option String
  location : Option String
  durationHours : Option Int
deriving DecidableEq

/-- `create(trip, budget)`: throws when some registered itinerary holds the
same Trip reference (`i.trip === trip`); otherwise registers and returns a
fresh itinerary.  The store is the `itineraries` array; the result pairs
the returned itinerary with the updated store. -/
def create (itineraries : List Itinerary) (trip : TripRef) (budget : Int) :
    Except String (Itinerary × List Itinerary) :=
  match itineraries.find? (fun i => i.trip.ref == trip.ref) with
  | some _ => .error "An itinerary for this trip already exists."
  | none =>
    let itinerary : Itinerary := ⟨trip, [], false, budget⟩
    .ok (itinerary, itineraries ++ [itinerary])

/-- `addEvent`: appends a new pending, unapproved event and returns it. -/
def addEvent (name : String) (cost : Int) (location : String)
    (itinerary : Itinerary) (start stop : String) : Event × Itinerary :=
  let event : Event := ⟨name, cost, start, stop, location, true, false⟩
  (event, { itinerary with events := itinerary.events ++ [event] })

/-- `updateEvent`: overwrites the four mutable fields, leaving the
`pending`/`approved` flags untouched. -/
def updateEvent (event : Event) (name : String) (cost : Int)
    (start stop : String) : Event :=
  { event with name := name, cost := cost, start := start, end_ := stop }

/-- `setEventApproval`: sets `approved` and unconditionally clears
`pending`. -/
def setEventApproval (event : Event) (approved : Bool) : Event :=
  { event with approved := approved, pending := false }

/-- `finalizeItinerary`: sets the flag. -/
def finalizeItinerary (itinerary : Itinerary) (finalized : Bool) : Itinerary :=
  { itinerary with finalized := finalized }

/-- `getRemainingBudget`: budget minus the summed cost of approved events
(`filter (e => e.approved)` then `reduce`). -/
def getRemainingBudget (itinerary : Itinerary) : Int :=
  itinerary.budget -
    (itinerary.events.filter (fun e => e.approved)).foldl
      (fun sum e => sum + e.cost) 0

/-- The ASCII whitespace characters matched by both the `\s` class of the
normalizing regex and `String.prototype.trim`. -/
def isJsSpace (c : Char) : Bool :=
  c = ' ' || c = '\t' || c = '\n' || c = '\r' || c = '\x0b' || c = '\x0c'

/-- One step of the validator's `normalize`: keep only `[a-z0-9\s]`
characters (applied after lowercasing). -/
def keepAlnumSpace (c : Char) : Bool :=
  ('a' ≤ c && c ≤ 'z') || ('0' ≤ c && c ≤ '9') || isJsSpace c

/-- JS `trim` on a character list. -/
def jsTrim (l : List Char) : List Char :=
  ((l.dropWhile isJsSpace).reverse.dropWhile isJsSpace).reverse

/-- The validator's `normalize`:
`text.toLowerCase().replace(/[^a-z0-9\s]/g, "").trim()`. -/
def normalize (text : String) : List Char :=
  jsTrim ((text.toList.map Char.toLower).filter keepAlnumSpace)

/-- JS `s.includes(sub)`: `sub` occurs contiguously in `s`. -/
def jsIncludes (s sub : List Char) : Bool :=
  decide (sub <:+: s)

/-- JS `toLowerCase` of a string, as a character list. -/
def jsToLowerStr (s : String) : List Char :=
  s.toList.map Char.toLower

/-- `validateDestination`: a falsy (missing or empty) location is rejected
outright; otherwise the normalized location must contain the normalized
destination, or the (non-empty) normalized location of some event. -/
def validateDestination (suggestion : Suggestion) (destination : String)
    (events : List Event) : Bool :=
  match suggestion.location with
  | none => false
  | some loc =>
    if loc = "" then false
    else
      let normalizedDest := normalize destination
      let suggestionText := normalize loc
      let matchesDestination := jsIncludes suggestionText normalizedDest
      let itineraryLocations :=
        (events.map (fun e => normalize e.location)).filter
          (fun l => l.length > 0)
      let matchesExistingLocation :=
        itineraryLocations.any (fun l => jsIncludes suggestionText l)
      matchesDestination || matchesExistingLocation

/-- `validateBudget`: `(suggestion.cost || 0) <= budget`; a missing cost
falls back to 0. -/
def validateBudget (suggestion : Suggestion) (budget : Int) : Bool :=
  suggestion.cost.getD 0 ≤ budget

/-- The comparison inside `isDuplicate`, for a present suggestion name:
some event name equals it after lowercasing. -/
def isDuplicateB (events : List Event) (name : String) : Bool :=
  events.any (fun e => jsToLowerStr e.name == jsToLowerStr name)

/-- `isDuplicate`: `events.some(e => e.name.toLowerCase() ===
suggestion.name.toLowerCase())`.  With a non-empty event list the callback
reads `suggestion.name.toLowerCase()`; if `name` is absent this is a thrown
`TypeError`, modelled as `.error ()`.  With an empty event list the
callback never runs. -/
def isDuplicate (events : List Event) (suggestion : Suggestion) :
    Except Unit Bool :=
  match events with
  | [] => .ok false
  | _ :: _ =>
    match suggestion.name with
    | none => .error ()
    | some n => .ok (isDuplicateB events n)

/-- `validateAllSuggestions`: per candidate, collect the issues from the
three checks and keep the candidate when there are none.  The two pure
checks cannot throw; a throw from `isDuplicate` propagates and aborts the
whole loop (there is no per-candidate catch). -/
def validateAllSuggestions (suggestions : List Suggestion)
    (events : List Event) (destination : String) (budget : Int) :
    Except Unit (List Suggestion) :=
  match suggestions with
  | [] => .ok []
  | s :: rest =>
    match isDuplicate events s with
    | .error e => .error e
    | .ok dup =>
      let ok := validateDestination s destination events &&
        validateBudget s budget && !dup
      match validateAllSuggestions rest events destination budget with
      | .error e => .error e
      | .ok vs => .ok (if ok then s :: vs else vs)

/-- Prefix of `l` ending at the *last* `']'` of `l`, when `l` contains one.
Building block for the span the greedy regex `/\[[\s\S]*\]/` matches. -/
def cutLast : List Char → Option (List Char)
  | [] => none
  | c :: rest =>
    match cutLast rest with
    | some m => some (c :: m)
    | none => if c = ']' then some [c] else none

/-- The span `text.match(/\[[\s\S]*\]/)` extracts: from the first `'['` of
the text through the last `']'`, provided that `']'` comes after the
`'['` (the regex `[\s\S]*` is greedy, so the match runs to the final
`']'`, not to the first one). -/
def extractArraySpan : List Char → Option (List Char)
  | [] => none
  | c :: rest =>
    if c = '[' then cutLast (c :: rest) else extractArraySpan rest

/-- Outcome of `JSON.parse` on the extracted span followed by the
`Array.isArray` test: either an array of (untyped) suggestion records, or
some non-array JSON value. -/
inductive JsonResult where
  | array : List Suggestion → JsonResult
  | notArray : JsonResult
deriving DecidableEq

/-- `requestSuggestionFromLLM`, with the `try/catch` folded in: every
failure path (rejected gateway call, no regex match, `JSON.parse` throw,
non-array value, exception inside validation) is caught and becomes `[]`.
`gatewayReply` is the outcome of `llm.executeLLM(prompt)`; `parse` gives
the outcome of `JSON.parse` on the extracted span.  The
`if (!validated) throw` line of the source is dead code: `validated` is an
array, and every array is truthy in JS, so the model omits it. -/
def requestSuggestionFromLLM (parse : List Char → Except Unit JsonResult)
    (gatewayReply : Except Unit (List Char)) (itinerary : Itinerary) :
    List Suggestion :=
  let destination := itinerary.trip.val.destination
  let remainingBudget := getRemainingBudget itinerary
  match gatewayReply with
  | .error _ => []
  | .ok text =>
    match extractArraySpan text with
    | none => []
    | some span =>
      match parse span with
      | .error _ => []
      | .ok .notArray => []
      | .ok (.array suggestions) =>
        match validateAllSuggestions suggestions itinerary.events
            destination remainingBudget with
        | .error _ => []
        | .ok validated => validated

/-- The operations that can mutate an existing `Event` record after
`addEvent` created it: a content edit (`updateEvent`) or an approval
decision (`setEventApproval`).  No other operation of the class writes an
event's fields. -/
inductive EventOp where
  | update : String → Int → String → String → EventOp
  | setApproval : Bool → EventOp
deriving DecidableEq

/-- Apply one mutating operation to an event. -/
def applyEventOp (event : Event) (op : EventOp) : Event :=
  match op with
  | .update name cost start stop => updateEvent event name cost start stop
  | .setApproval v => setEventApproval event v

/-- Modelled from the spec: "locate the first balanced top-level
array-like delimiter span" — scan from an opening `'['` keeping a bracket
depth, and stop at the matching top-level `']'`.  This is the design-note
contract the extraction step is claimed to satisfy; it exists only to be
compared against `extractArraySpan`, the behaviour of the source's greedy
regex. -/
def balancedGo : List Char → Nat → List Char → Option (List Char)
  | [], _, _ => none
  | c :: rest, depth, acc =>
    if c = ']' then
      if depth = 1 then some (c :: acc).reverse
      else balancedGo rest (depth - 1) (c :: acc)
    else if c = '[' then balancedGo rest (depth + 1) (c :: acc)
    else balancedGo rest depth (c :: acc)

/-- Modelled from the spec: the first balanced top-level bracketed span of
the text (see `balancedGo`). -/
def firstBalancedArraySpan (l : List Char) : Option (List Char) :=
  match l.dropWhile (fun c => c ≠ '[') with
  | [] => none
  | c :: rest => balancedGo rest 1 [c]

/-! Concrete instances used by witnesses and counterexamples. -/

/-- A concrete trip. -/
def romeTrip : Trip := ⟨"Rome, Italy", "2025-06-01", "2025-06-14", 4⟩

/-- A trip object holding `romeTrip`. -/
def romeRef : TripRef := ⟨0, romeTrip⟩

/-- A second, distinct trip object holding the same field values. -/
def romeRefTwin : TripRef := ⟨1, romeTrip⟩

/-- An empty itinerary on `romeRef`. -/
def emptyItin : Itinerary := ⟨romeRef, [], false, 0⟩

/-- An existing (pending) event in Rome. -/
def colosseumEv : Event :=
  ⟨"Colosseum Tour", 150, "2025-06-03T10:00:00Z", "2025-06-03T12:00:00Z",
    "Rome, Italy", true, false⟩

/-- A malformed run-time suggestion: the required `name` field is absent. -/
def namelessSugg : Suggestion :=
  ⟨none, some 5, some "Dining", some "Rome, Italy", some 1⟩

/-- A well-formed suggestion that passes all three checks against
`colosseumEv` and a 100 budget. -/
def pantheonSugg : Suggestion :=
  ⟨some "Pantheon Visit", some 20, some "Sightseeing", some "Rome, Italy",
    some 2⟩

/-- A well-formed suggestion that exceeds a 100 budget. -/
def operaSugg : Suggestion :=
  ⟨some "Opera Night", some 400, some "Cultural", some "Rome, Italy",
    some 3⟩

/-- Itinerary with one pending event and remaining budget 100. -/
def romeItin : Itinerary := ⟨⟨2, romeTrip⟩, [colosseumEv], false, 100⟩

/-- Parse outcome used to drive the pipeline with the two suggestions
above. -/
def parseRome : List Char → Except Unit JsonResult :=
  fun _ => .ok (.array [namelessSugg, pantheonSugg])

/-- A pending (not approved) event located in Paris. -/
def eiffelEv : Event :=
  ⟨"Eiffel Tower Visit", 10, "2025-06-03T10:00:00Z",
    "2025-06-03T12:00:00Z", "Paris, France", true, false⟩

/-- A suggestion located in Paris. -/
def louvreSugg : Suggestion :=
  ⟨some "Louvre Museum", some 10, some "Museum", some "Paris, France",
    some 2⟩

/-- Itinerary with destination Rome but a pending Paris event. -/
def mixedItin : Itinerary :=
  ⟨⟨3, ⟨"Rome", "2025-03-10", "2025-03-17", 1⟩⟩, [eiffelEv], false, 100⟩

/-- Parse outcome delivering only `louvreSugg`. -/
def parseLouvre : List Char → Except Unit JsonResult :=
  fun _ => .ok (.array [louvreSugg])

/-- A suggestion whose `location` field is present but the empty string. -/
def emptyLocSugg : Suggestion :=
  ⟨some "Mystery", some 0, none, some "", none⟩

/-- A suggestion with an arbitrary non-empty location. -/
def anywhereSugg : Suggestion :=
  ⟨some "Roadside Diner", some 3, some "Dining", some "Anywhere Street 5",
    some 1⟩

/-! Helper lemmas (shared across the claim theorems). -/

/-- The `reduce`-style fold of costs equals the mapped sum. -/
theorem foldl_cost_eq_sum (l : List Event) (a : Int) :
    l.foldl (fun sum e => sum + e.cost) a =
      a + (l.map (fun e => e.cost)).sum := by
  induction l generalizing a with
  | nil => simp
  | cons e t ih => simp [ih, add_assoc]

/-- A mutated event cannot be simultaneously approved and pending, provided
it was not so before the mutation. -/
theorem eventOps_flag_invariant (e : Event) (ops : List EventOp)
    (h : (e.approved && e.pending) = false) :
    ((ops.foldl applyEventOp e).approved &&
      (ops.foldl applyEventOp e).pending) = false := by
  induction ops generalizing e with
  | nil => exact h
  | cons op t ih =>
    apply ih
    cases op with
    | update name cost start stop =>
      simpa [applyEventOp, updateEvent] using h
    | setApproval v => simp [applyEventOp, setEventApproval]

/-- Characterization of `validateDestination`: it accepts exactly the
suggestions with a present, non-empty location whose normalization contains
the normalized destination, or the non-empty normalization of some event
location, as a contiguous substring. -/
theorem validateDestination_iff (s : Suggestion) (dest : String)
    (events : List Event) :
    validateDestination s dest events = true ↔
      ∃ loc, s.location = some loc ∧ loc ≠ "" ∧
        (normalize dest <:+: normalize loc ∨
          ∃ e ∈ events, normalize e.location ≠ [] ∧
            normalize e.location <:+: normalize loc) := by
  cases h : s.location with
  | none => simp [validateDestination, h]
  | some loc =>
    by_cases hl : loc = ""
    · subst hl
      simp [validateDestination, h]
    · simp only [validateDestination, h]
      rw [if_neg hl]
      simp [jsIncludes, List.mem_filter, List.length_pos, hl]

/-- With a present suggestion name the duplicate check cannot throw and
computes the case-insensitive name comparison. -/
theorem isDuplicate_ok (events : List Event) (s : Suggestion) (n : String)
    (h : s.name = some n) :
    isDuplicate events s = .ok (isDuplicateB events n) := by
  cases events with
  | nil => simp [isDuplicate, isDuplicateB]
  | cons e t => simp [isDuplicate, h]

/-- On well-formed suggestions (every candidate carries a name, as the
`Suggestion` interface requires) the validation loop computes an ordinary
filter by the three checks. -/
theorem validateAll_eq_filter (suggestions : List Suggestion)
    (events : List Event) (destination : String) (budget : Int)
    (h : ∀ s ∈ suggestions, s.name.isSome = true) :
    validateAllSuggestions suggestions events destination budget =
      .ok (suggestions.filter (fun s =>
        validateDestination s destination events &&
        validateBudget s budget &&
        !isDuplicateB events (s.name.getD ""))) := by
  induction suggestions with
  | nil => rfl
  | cons s rest ih =>
    obtain ⟨n, hn⟩ : ∃ n, s.name = some n :=
      Option.isSome_iff_exists.mp (h s (List.mem_cons_self s rest))
    have hrest := ih (fun x hx => h x (List.mem_cons_of_mem s hx))
    have hgetD : s.name.getD "" = n := by simp [hn]
    simp only [validateAllSuggestions, isDuplicate_ok events s n hn, hrest,
      List.filter_cons, hgetD]

/-- Any suggestion surviving the validation loop passed the destination
check against the full event list. -/
theorem validateAll_mem {suggestions : List Suggestion}
    {events : List Event} {destination : String} {budget : Int}
    {vs : List Suggestion} {s : Suggestion}
    (h : validateAllSuggestions suggestions events destination budget = .ok vs)
    (hs : s ∈ vs) : validateDestination s destination events = true := by
  induction suggestions generalizing vs with
  | nil =>
    simp only [validateAllSuggestions, Except.ok.injEq] at h
    subst h
    simp at hs
  | cons s₀ rest ih =>
    simp only [validateAllSuggestions] at h
    cases hd : isDuplicate events s₀ with
    | error e => rw [hd] at h; cases h
    | ok dup =>
      rw [hd] at h
      cases hr : validateAllSuggestions rest events destination budget with
      | error e => rw [hr] at h; cases h
      | ok vs' =>
        rw [hr] at h
        simp only [Except.ok.injEq] at h
        subst h
        by_cases hcond : (validateDestination s₀ destination events &&
            validateBudget s₀ budget && !dup) = true
        · rw [if_pos hcond] at hs
          rcases List.mem_cons.mp hs with rfl | hmem
          · simp only [Bool.and_eq_true] at hcond
            exact hcond.1.1
          · exact ih hr hmem
        · rw [if_neg hcond] at hs
          exact ih hr hs

/-- If `cutLast` returns `none`, the list holds no `']'`. -/
theorem cutLast_eq_none : ∀ {l : List Char}, cutLast l = none → ']' ∉ l := by
  intro l
  induction l with
  | nil => simp
  | cons c rest ih =>
    intro h hmem
    simp only [cutLast] at h
    cases hr : cutLast rest with
    | some m => simp [hr] at h
    | none =>
      rw [hr] at h
      by_cases hc : c = ']'
      · simp [hc] at h
      · rcases List.mem_cons.mp hmem with h1 | h1
        · exact hc h1.symm
        · exact ih hr h1

/-- If `cutLast` returns a span, the list is that span followed by a
`']'`-free tail, and the span ends in `']'`. -/
theorem cutLast_eq_some : ∀ {l m : List Char}, cutLast l = some m →
    ∃ post m', l = m ++ post ∧ ']' ∉ post ∧ m = m' ++ [']'] := by
  intro l
  induction l with
  | nil => intro m h; simp [cutLast] at h
  | cons c rest ih =>
    intro m h
    simp only [cutLast] at h
    cases hr : cutLast rest with
    | some m₁ =>
      rw [hr] at h
      simp only [Option.some.injEq] at h
      subst h
      obtain ⟨post, m', heq, hpost, hend⟩ := ih hr
      exact ⟨post, c :: m', by simp [heq], hpost, by simp [hend]⟩
    | none =>
      rw [hr] at h
      by_cases hc : c = ']'
      · rw [if_pos hc] at h
        simp only [Option.some.injEq] at h
        subst h
        subst hc
        exact ⟨rest, [], rfl, cutLast_eq_none hr, rfl⟩
      · rw [if_neg hc] at h
        cases h

/-- C7: `getRemainingBudget` equals budget minus the summed cost of exactly
the approved events; appending an unapproved event never changes it; and a
negative result is possible (it is an ordinary value, not an error). -/
theorem getRemainingBudget_spec (itin : Itinerary) :
    getRemainingBudget itin =
      itin.budget -
        ((itin.events.filter (fun e => e.approved)).map
          (fun e => e.cost)).sum ∧
    (∀ e : Event, e.approved = false →
      getRemainingBudget { itin with events := itin.events ++ [e] } =
        getRemainingBudget itin) ∧
    (∃ itin' : Itinerary, getRemainingBudget itin' < 0) := by
  refine ⟨?_, ?_, ?_⟩
  · simp [getRemainingBudget, foldl_cost_eq_sum]
  · intro e he
    simp [getRemainingBudget, List.filter_append, he, List.filter,
      foldl_cost_eq_sum]
  · refine ⟨⟨romeRef, [⟨"x", 1, "", "", "", false, true⟩], false, 0⟩, ?_⟩
    decide

/-- C7 witness: appending the unapproved `eiffelEv` leaves the remaining
budget of `romeItin` unchanged. -/
theorem getRemainingBudget_spec_witness :
    getRemainingBudget { romeItin with events := romeItin.events ++ [eiffelEv] } =
      getRemainingBudget romeItin :=
  (getRemainingBudget_spec romeItin).2.1 eiffelEv rfl

/-- C8: `create` fails (with the duplicate-trip error) iff some registered
itinerary holds the same Trip reference; otherwise it registers and returns
an itinerary with no events, `finalized = false` and the given budget; and
two distinct Trip objects with identical field values can both be
registered. -/
theorem create_spec :
    (∀ (st : List Itinerary) (trip : TripRef) (b : Int),
      (create st trip b = .error "An itinerary for this trip already exists." ↔
        ∃ i ∈ st, i.trip.ref = trip.ref) ∧
      ((∀ i ∈ st, i.trip.ref ≠ trip.ref) →
        create st trip b =
          .ok (⟨trip, [], false, b⟩, st ++ [⟨trip, [], false, b⟩]))) ∧
    (∀ (t₁ t₂ : TripRef) (b₁ b₂ : Int), t₁.ref ≠ t₂.ref → t₁.val = t₂.val →
      create [] t₁ b₁ = .ok (⟨t₁, [], false, b₁⟩, [⟨t₁, [], false, b₁⟩]) ∧
      create [⟨t₁, [], false, b₁⟩] t₂ b₂ =
        .ok (⟨t₂, [], false, b₂⟩,
          [⟨t₁, [], false, b₁⟩, ⟨t₂, [], false, b₂⟩])) := by
  constructor
  · intro st trip b
    constructor
    · cases h : st.find? (fun i => i.trip.ref == trip.ref) with
      | none =>
        simp only [create, h]
        constructor
        · intro hcontra
          exact absurd hcontra (by simp)
        · intro ⟨i, hi, hieq⟩
          have := List.find?_eq_none.mp h i hi
          simp [hieq] at this
      | some i =>
        simp only [create, h]
        constructor
        · intro _
          refine ⟨i, List.mem_of_find?_eq_some h, ?_⟩
          have := List.find?_some h
          simpa using this
        · intro _
          trivial
    · intro hall
      have h : st.find? (fun i => i.trip.ref == trip.ref) = none :=
        List.find?_eq_none.mpr (fun i hi => by simp [hall i hi])
      simp [create, h]
  · intro t₁ t₂ b₁ b₂ href _
    constructor
    · rfl
    · have hfalse : (t₁.ref == t₂.ref) = false := by
        simp [href]
      simp [create, List.find?, hfalse]

/-- C8 witness: two Trip objects with identical fields but distinct
references are both registered. -/
theorem create_spec_witness :
    create [⟨romeRef, [], false, 10⟩] romeRefTwin 20 =
      .ok (⟨romeRefTwin, [], false, 20⟩,
        [⟨romeRef, [], false, 10⟩, ⟨romeRefTwin, [], false, 20⟩]) :=
  (create_spec.2 romeRef romeRefTwin 10 20 (by decide) rfl).2

/-- C9: events created by `addEvent` start pending and unapproved;
`setEventApproval e v` always yields `approved = v`, `pending = false`; and
under any sequence of event mutations no event is ever simultaneously
approved and pending. -/
theorem eventFlags_spec :
    (∀ name cost loc itin start stop,
      (addEvent name cost loc itin start stop).1.pending = true ∧
      (addEvent name cost loc itin start stop).1.approved = false) ∧
    (∀ (e : Event) (v : Bool),
      (setEventApproval e v).approved = v ∧
      (setEventApproval e v).pending = false) ∧
    (∀ name cost loc itin start stop (ops : List EventOp),
      ((ops.foldl applyEventOp (addEvent name cost loc itin start stop).1).approved &&
        (ops.foldl applyEventOp (addEvent name cost loc itin start stop).1).pending) =
        false) := by
  refine ⟨fun _ _ _ _ _ _ => ⟨rfl, rfl⟩, fun e v => ⟨rfl, rfl⟩, ?_⟩
  intro name cost loc itin start stop ops
  exact eventOps_flag_invariant _ ops (by simp [addEvent])

/-- C10: a destination with no letters or digits normalizes to the empty
string, and then every suggestion with a non-empty location passes the
destination check. -/
theorem validateDestination_empty_dest (dest : String) (s : Suggestion)
    (events : List Event) (loc : String) (hd : normalize dest = [])
    (hl : s.location = some loc) (hne : loc ≠ "") :
    validateDestination s dest events = true := by
  simp [validateDestination, hl, hne, hd, jsIncludes]

/-- C10 witness: destination `"!!!"` accepts an arbitrary non-empty
location. -/
theorem validateDestination_empty_dest_witness :
    validateDestination anywhereSugg "!!!" [] = true :=
  validateDestination_empty_dest "!!!" anywhereSugg [] "Anywhere Street 5"
    (by decide) rfl (by decide)

/-- C1: the requester is fail-soft — a rejected gateway call, a reply with
no bracketed-array span, a parse failure on the extracted span, a
non-array parse result, or an exception thrown inside validation all make
`requestSuggestionFromLLM` return the empty list rather than throw. -/
theorem requestSuggestion_failSoft
    (parse : List Char → Except Unit JsonResult)
    (gw : Except Unit (List Char)) (itin : Itinerary) :
    (∀ err, gw = .error err → requestSuggestionFromLLM parse gw itin = []) ∧
    (∀ text, gw = .ok text → extractArraySpan text = none →
      requestSuggestionFromLLM parse gw itin = []) ∧
    (∀ text span, gw = .ok text → extractArraySpan text = some span →
      parse span = .error () → requestSuggestionFromLLM parse gw itin = []) ∧
    (∀ text span, gw = .ok text → extractArraySpan text = some span →
      parse span = .ok .notArray →
      requestSuggestionFromLLM parse gw itin = []) ∧
    (∀ text span suggs, gw = .ok text → extractArraySpan text = some span →
      parse span = .ok (.array suggs) →
      validateAllSuggestions suggs itin.events itin.trip.val.destination
        (getRemainingBudget itin) = .error () →
      requestSuggestionFromLLM parse gw itin = []) := by
  refine ⟨?_, ?_, ?_, ?_, ?_⟩ <;> intros <;> subst_vars <;>
    simp [requestSuggestionFromLLM, *]

/-- C1 witness: a failed gateway call yields the empty list. -/
theorem requestSuggestion_failSoft_witness :
    requestSuggestionFromLLM parseRome (.error ()) romeItin = [] :=
  (requestSuggestion_failSoft parseRome (.error ()) romeItin).1 () rfl

/-- C2: on candidate lists whose members carry a name (as the `Suggestion`
interface requires), `validateAllSuggestions` returns exactly the
candidates passing the destination, budget (inclusive bound, absent cost
read as 0) and case-insensitive duplicate checks, in input order: the
result is the surviving ordered subsequence of the input. -/
theorem validateAllSuggestions_spec (suggestions : List Suggestion)
    (events : List Event) (destination : String) (budget : Int)
    (h : ∀ s ∈ suggestions, s.name.isSome = true) :
    validateAllSuggestions suggestions events destination budget =
      .ok (suggestions.filter (fun s =>
        validateDestination s destination events &&
        validateBudget s budget &&
        !isDuplicateB events (s.name.getD ""))) ∧
    (suggestions.filter (fun s =>
        validateDestination s destination events &&
        validateBudget s budget &&
        !isDuplicateB events (s.name.getD ""))).Sublist suggestions :=
  ⟨validateAll_eq_filter suggestions events destination budget h,
    List.filter_sublist suggestions⟩

/-- C2 witness: of two named candidates against one existing event and
budget 100, exactly the in-budget one survives, in order. -/
theorem validateAllSuggestions_spec_witness :
    validateAllSuggestions [pantheonSugg, operaSugg] [colosseumEv]
      "Rome, Italy" 100 = .ok [pantheonSugg] := by
  rw [(validateAllSuggestions_spec [pantheonSugg, operaSugg] [colosseumEv]
    "Rome, Italy" 100 (by decide)).1]
  rfl

/-- C3 counterexample: for the empty destination (which normalizes to the
empty string) and a suggestion whose location is the empty string, the
claimed containment holds — the normalized location contains the
normalized destination — yet `validateDestination` rejects, because a
falsy location is rejected before any normalization. -/
theorem validateDestination_iff_counterexample :
    validateDestination emptyLocSugg "" [] = false ∧
    (normalize "" <:+: normalize "") := by
  exact ⟨rfl, by decide⟩

/-- C3 (amended): `validateDestination` accepts iff the location is
present and non-empty and its normalization contains the normalized
destination, or the normalized location of some event provided that
normalization is non-empty; in particular "Trastevere, Rome, Italy" is
accepted for destination "Rome, Italy" and "Paris, France" is rejected
when no event location matches. -/
theorem validateDestination_spec :
    (∀ (s : Suggestion) (dest : String) (events : List Event),
      validateDestination s dest events = true ↔
        ∃ loc, s.location = some loc ∧ loc ≠ "" ∧
          (normalize dest <:+: normalize loc ∨
            ∃ e ∈ events, normalize e.location ≠ [] ∧
              normalize e.location <:+: normalize loc)) ∧
    validateDestination
      ⟨some "Trastevere Walk", some 0, none, some "Trastevere, Rome, Italy",
        none⟩ "Rome, Italy" [] = true ∧
    validateDestination
      ⟨some "Paris Walk", some 0, none, some "Paris, France", none⟩
      "Rome, Italy" [] = false :=
  ⟨validateDestination_iff, by decide, by decide⟩

/-- C4 counterexample: on the reply `"[1] x [2]"`, which contains two
bracketed arrays, the span handed to `JSON.parse` is the whole
`"[1] x [2]"` — from the first `'['` to the last `']'` — and not the
first balanced top-level array `"[1]"`. -/
theorem extractArraySpan_counterexample :
    extractArraySpan "[1] x [2]".toList = some "[1] x [2]".toList ∧
    firstBalancedArraySpan "[1] x [2]".toList = some "[1]".toList ∧
    ("[1] x [2]".toList : List Char) ≠ "[1]".toList :=
  ⟨by decide, by decide, by decide⟩

/-- C4 (amended): the extracted span runs from the first `'['` of the
reply to its last `']'` (the greedy regex), so when several arrays occur
the parsed span covers all of them: the text splits as
`pre ++ span ++ post` with no `'['` before the span and no `']'` after
it, and the span is bracketed. -/
theorem extractArraySpan_spec : ∀ {l m : List Char},
    extractArraySpan l = some m →
    ∃ pre mid post, l = pre ++ m ++ post ∧ m = '[' :: mid ++ [']'] ∧
      '[' ∉ pre ∧ ']' ∉ post := by
  intro l
  induction l with
  | nil => intro m h; simp [extractArraySpan] at h
  | cons c rest ih =>
    intro m h
    simp only [extractArraySpan] at h
    by_cases hc : c = '['
    · rw [if_pos hc] at h
      obtain ⟨post, m', heq, hpost, hend⟩ := cutLast_eq_some h
      cases m' with
      | nil =>
        rw [hend] at heq
        have hc' : c = ']' ∧ rest = post := by simpa using heq
        exact absurd (hc.symm.trans hc'.1) (by decide)
      | cons d m'' =>
        subst hend
        have hd : c = d ∧ rest = (m'' ++ [']']) ++ post := by
          simpa using heq
        refine ⟨[], m'', post, ?_, ?_, by simp, hpost⟩
        · simp [heq]
        · rw [← hd.1, hc]
    · rw [if_neg hc] at h
      obtain ⟨pre, mid, post, heq, hm, hpre, hpost⟩ := ih h
      refine ⟨c :: pre, mid, post, by simp [heq], hm, ?_, hpost⟩
      simp only [List.mem_cons, not_or]
      exact ⟨fun hh => hc hh.symm, hpre⟩

/-- C4 witness: the span extracted from `"[1] x [2]"` satisfies the
amended description. -/
theorem extractArraySpan_spec_witness :
    ∃ pre mid post,
      "[1] x [2]".toList = pre ++ "[1] x [2]".toList ++ post ∧
      ("[1] x [2]".toList : List Char) = '[' :: mid ++ [']'] ∧
      '[' ∉ pre ∧ ']' ∉ post :=
  extractArraySpan_spec
    (show extractArraySpan "[1] x [2]".toList = some "[1] x [2]".toList
      by decide)

/-- C5: evaluation at the failing input.  Candidate list: a malformed
suggestion missing `name`, then a fully valid one; one existing event.
The duplicate check throws on the malformed entry, the loop aborts, and
the requester degrades everything to `[]` — the valid candidate, which
passes all three checks on its own, is lost instead of returned. -/
theorem validationAbort_eval :
    validateAllSuggestions [namelessSugg, pantheonSugg] [colosseumEv]
      "Rome, Italy" 100 = .error () ∧
    requestSuggestionFromLLM parseRome (.ok "[]".toList) romeItin = [] ∧
    (validateDestination pantheonSugg "Rome, Italy" [colosseumEv] &&
      validateBudget pantheonSugg 100 &&
      !isDuplicateB [colosseumEv] "Pantheon Visit") = true :=
  ⟨rfl, rfl, by decide⟩

/-- C6 counterexample: destination "Rome" with a pending (never approved)
Paris event: the pipeline returns a suggestion located "Paris, France",
whose normalized location contains neither the normalized destination nor
the location of any approved event (there are none). -/
theorem suggestionPipeline_counterexample :
    requestSuggestionFromLLM parseLouvre (.ok "[]".toList) mixedItin =
      [louvreSugg] ∧
    jsIncludes (normalize "Paris, France")
      (normalize mixedItin.trip.val.destination) = false ∧
    mixedItin.events.all (fun e => !e.approved) = true :=
  ⟨rfl, by decide, by decide⟩

/-- C6 (amended): every suggestion the pipeline returns has a present,
non-empty location whose normalization contains the normalized trip
destination or the non-empty normalized location of some event of the
itinerary — approved or not. -/
theorem suggestionPipeline_location_justified
    (parse : List Char → Except Unit JsonResult)
    (gw : Except Unit (List Char)) (itin : Itinerary) (s : Suggestion)
    (hs : s ∈ requestSuggestionFromLLM parse gw itin) :
    ∃ loc, s.location = some loc ∧ loc ≠ "" ∧
      (normalize itin.trip.val.destination <:+: normalize loc ∨
        ∃ e ∈ itin.events, normalize e.location ≠ [] ∧
          normalize e.location <:+: normalize loc) := by
  unfold requestSuggestionFromLLM at hs
  cases gw with
  | error e => simp at hs
  | ok text =>
    cases hex : extractArraySpan text with
    | none => simp [hex] at hs
    | some span =>
      simp only [hex] at hs
      cases hp : parse span with
      | error e => simp [hp] at hs
      | ok json =>
        simp only [hp] at hs
        cases json with
        | notArray => simp at hs
        | array suggestions =>
          simp only at hs
          cases hv : validateAllSuggestions suggestions itin.events
              itin.trip.val.destination (getRemainingBudget itin) with
          | error e => simp [hv] at hs
          | ok validated =>
            simp only [hv] at hs
            exact (validateDestination_iff s itin.trip.val.destination
              itin.events).mp (validateAll_mem hv hs)

/-- C6 witness: the Paris suggestion returned for `mixedItin` is justified
by the (pending) Paris event's location. -/
theorem suggestionPipeline_location_justified_witness :
    ∃ loc, louvreSugg.location = some loc ∧ loc ≠ "" ∧
      (normalize mixedItin.trip.val.destination <:+: normalize loc ∨
        ∃ e ∈ mixedItin.events, normalize e.location ≠ [] ∧
          normalize e.location <:+: normalize loc) :=
  suggestionPipeline_location_justified parseLouvre (.ok "[]".toList)
    mixedItin louvreSugg (by decide)

end PlanItinerary
